import Mathlib

/-!
Shallow embedding of the core of `fernfs`, a user-space NFSv3 server backed
by a live local directory tree, together with proofs checking the
natural-language specification against the code.

Embedded components:
* the RPC transaction tracker (`src/protocol/rpc/transaction_tracker.rs`);
* the permission evaluator (`src/vfs/permissions.rs`);
* the MOUNT path-to-handle translation (`src/protocol/nfs/mount/mnt.rs`);
* the identity map `FSMap` and its entry record `FSEntry`
  (`examples/mirror_fs/fs_map.rs`, `src/bin/fernfs/fs_entry.rs`).

Rust `HashMap`s are modelled as association lists with distinct keys,
`BTreeMap`/`BTreeSet` as key-sorted association lists / sorted lists,
machine integers as `Nat` (no arithmetic here overflows), `SystemTime` and
`Duration` as `Nat` nanoseconds, and host-filesystem I/O as an explicit
`Host` record passed to the operations that perform it.
-/

namespace Fern

/-- Association-list lookup, mirroring `HashMap::get`: the first binding of
the key wins (a real `HashMap` has at most one). -/
def lookupA {κ ν : Type} [DecidableEq κ] : List (κ × ν) → κ → Option ν
  | [], _ => none
  | kv :: rest, k => if kv.1 = k then some kv.2 else lookupA rest k

/-- Association-list insert, mirroring `HashMap::insert`: replace the first
binding of the key, or append a fresh binding. -/
def insertA {κ ν : Type} [DecidableEq κ] : List (κ × ν) → κ → ν → List (κ × ν)
  | [], k, v => [(k, v)]
  | kv :: rest, k, v => if kv.1 = k then (k, v) :: rest else kv :: insertA rest k v

/-- Association-list removal, mirroring `HashMap::remove`. -/
def eraseA {κ ν : Type} [DecidableEq κ] : List (κ × ν) → κ → List (κ × ν)
  | [], _ => []
  | kv :: rest, k => if kv.1 = k then rest else kv :: eraseA rest k

/-- The keys of an association list are pairwise distinct (always true of
the Rust maps being modelled). -/
def keysNodup {κ ν : Type} (l : List (κ × ν)) : Prop :=
  (l.map Prod.fst).Nodup

instance keysNodup.decidable {κ ν : Type} [DecidableEq κ] (l : List (κ × ν)) :
    Decidable (keysNodup l) := by
  unfold keysNodup
  infer_instance

theorem lookupA_eq_none_of_not_mem {κ ν : Type} [DecidableEq κ]
    (l : List (κ × ν)) (k : κ) (h : k ∉ l.map Prod.fst) : lookupA l k = none := by
  induction l with
  | nil => rfl
  | cons kv rest ih =>
    simp only [List.map_cons, List.mem_cons, not_or] at h
    have hne : kv.1 ≠ k := fun he => h.1 he.symm
    simp [lookupA, hne, ih h.2]

theorem lookupA_insertA_self {κ ν : Type} [DecidableEq κ]
    (l : List (κ × ν)) (k : κ) (v : ν) : lookupA (insertA l k v) k = some v := by
  induction l with
  | nil => simp [insertA, lookupA]
  | cons kv rest ih =>
    by_cases h : kv.1 = k
    · simp [insertA, lookupA, h]
    · simp [insertA, lookupA, h, ih]

theorem lookupA_insertA_ne {κ ν : Type} [DecidableEq κ]
    (l : List (κ × ν)) (k k' : κ) (v : ν) (hne : k' ≠ k) :
    lookupA (insertA l k v) k' = lookupA l k' := by
  have hne' : ¬ (k = k') := fun h => hne (Eq.symm h)
  induction l with
  | nil => simp [insertA, lookupA, hne']
  | cons kv rest ih =>
    by_cases h : kv.1 = k
    · subst h
      simp [insertA, lookupA, hne']
    · by_cases h' : kv.1 = k'
      · simp [insertA, lookupA, h, h', hne]
      · simp [insertA, lookupA, h, h', ih]

theorem lookupA_eraseA_self {κ ν : Type} [DecidableEq κ]
    (l : List (κ × ν)) (k : κ) (hnd : keysNodup l) :
    lookupA (eraseA l k) k = none := by
  induction l with
  | nil => rfl
  | cons kv rest ih =>
    simp only [keysNodup, List.map_cons, List.nodup_cons] at hnd
    by_cases h : kv.1 = k
    · subst h
      simp only [eraseA, if_pos rfl]
      exact lookupA_eq_none_of_not_mem rest kv.1 hnd.1
    · simp [eraseA, lookupA, h, ih hnd.2]

theorem lookupA_eraseA_ne {κ ν : Type} [DecidableEq κ]
    (l : List (κ × ν)) (k k' : κ) (hne : k' ≠ k) :
    lookupA (eraseA l k) k' = lookupA l k' := by
  induction l with
  | nil => rfl
  | cons kv rest ih =>
    by_cases h : kv.1 = k
    · subst h
      have hne' : ¬ (kv.1 = k') := fun he => hne (Eq.symm he)
      simp [eraseA, lookupA, hne']
    · by_cases h' : kv.1 = k'
      · simp [eraseA, lookupA, h, h', hne]
      · simp [eraseA, lookupA, h, h', ih]

theorem eraseA_of_none {κ ν : Type} [DecidableEq κ]
    (l : List (κ × ν)) (k : κ) (h : lookupA l k = none) : eraseA l k = l := by
  induction l with
  | nil => rfl
  | cons kv rest ih =>
    by_cases hk : kv.1 = k
    · simp [lookupA, hk] at h
    · simp only [lookupA, if_neg hk] at h
      simp [eraseA, hk, ih h]

theorem lookupA_filter_of_eq {κ ν : Type} [DecidableEq κ]
    (l : List (κ × ν)) (p : κ × ν → Bool) (k : κ) (v : ν)
    (hnd : keysNodup l) (hl : lookupA l k = some v) (hp : p (k, v) = true) :
    lookupA (l.filter p) k = some v := by
  induction l with
  | nil => simp [lookupA] at hl
  | cons kv rest ih =>
    simp only [keysNodup, List.map_cons, List.nodup_cons] at hnd
    by_cases h : kv.1 = k
    · simp only [lookupA, if_pos h] at hl
      obtain ⟨k0, v0⟩ := kv
      simp only at h
      simp only [Option.some.injEq] at hl
      subst h
      subst hl
      rw [List.filter_cons_of_pos hp]
      simp [lookupA]
    · simp only [lookupA, if_neg h] at hl
      by_cases hpk : p kv = true
      · rw [List.filter_cons_of_pos hpk]
        simp only [lookupA, if_neg h]
        exact ih hnd.2 hl
      · rw [List.filter_cons_of_neg (by simpa using hpk)]
        exact ih hnd.2 hl

theorem lookupA_filter_of_none {κ ν : Type} [DecidableEq κ]
    (l : List (κ × ν)) (p : κ × ν → Bool) (k : κ)
    (hl : lookupA l k = none) :
    lookupA (l.filter p) k = none := by
  induction l with
  | nil => rfl
  | cons kv rest ih =>
    by_cases h : kv.1 = k
    · simp [lookupA, h] at hl
    · simp only [lookupA, if_neg h] at hl
      by_cases hpk : p kv = true
      · rw [List.filter_cons_of_pos hpk]
        simp only [lookupA, if_neg h]
        exact ih hl
      · rw [List.filter_cons_of_neg (by simpa using hpk)]
        exact ih hl

theorem mem_keys_insertA {κ ν : Type} [DecidableEq κ]
    (l : List (κ × ν)) (k : κ) (v : ν) (x : κ)
    (hx : x ∈ (insertA l k v).map Prod.fst) :
    x ∈ l.map Prod.fst ∨ x = k := by
  induction l with
  | nil =>
    right
    simpa [insertA] using hx
  | cons kv rest ih =>
    by_cases h : kv.1 = k
    · simp only [insertA, if_pos h, List.map_cons, List.mem_cons] at hx
      rcases hx with hx | hx
      · right; exact hx
      · left; simp [List.mem_cons, hx]
    · simp only [insertA, if_neg h, List.map_cons, List.mem_cons] at hx
      rcases hx with hx | hx
      · left; simp [List.mem_cons, hx]
      · rcases ih hx with h1 | h1
        · left; simp [List.mem_cons, h1]
        · right; exact h1

theorem keysNodup_insertA {κ ν : Type} [DecidableEq κ]
    (l : List (κ × ν)) (k : κ) (v : ν) (hnd : keysNodup l) :
    keysNodup (insertA l k v) := by
  induction l with
  | nil => simp [insertA, keysNodup]
  | cons kv rest ih =>
    simp only [keysNodup, List.map_cons, List.nodup_cons] at hnd
    by_cases h : kv.1 = k
    · subst h
      simpa [insertA, keysNodup] using hnd
    · have hrest := ih hnd.2
      simp only [insertA, if_neg h, keysNodup, List.map_cons, List.nodup_cons]
      refine ⟨?_, hrest⟩
      intro hmem
      rcases mem_keys_insertA rest k v kv.1 hmem with h1 | h1
      · exact hnd.1 h1
      · exact h h1

theorem keysNodup_filter {κ ν : Type} [DecidableEq κ]
    (l : List (κ × ν)) (p : κ × ν → Bool) (hnd : keysNodup l) :
    keysNodup (l.filter p) := by
  induction l with
  | nil => simp [keysNodup]
  | cons kv rest ih =>
    simp only [keysNodup, List.map_cons, List.nodup_cons] at hnd
    by_cases hpk : p kv = true
    · rw [List.filter_cons_of_pos hpk]
      simp only [keysNodup, List.map_cons, List.nodup_cons]
      refine ⟨?_, ih hnd.2⟩
      intro hmem
      obtain ⟨x, hx, he⟩ := List.mem_map.mp hmem
      exact hnd.1 (List.mem_map.mpr ⟨x, List.mem_of_mem_filter hx, he⟩)
    · rw [List.filter_cons_of_neg (by simpa using hpk)]
      exact ih hnd.2

/-! ## RPC transaction tracker (`src/protocol/rpc/transaction_tracker.rs`)

`SystemTime` and `Duration` are modelled as `Nat` nanoseconds; the current
time is passed explicitly to the operations that call `SystemTime::now()`.
`SystemTime::duration_since` fails when the clock moved backwards, which the
code turns into `unwrap_or(true)`; `now - max_age` on `SystemTime` is
truncated subtraction. -/

/-- State of one tracked transaction (`TransactionState`). -/
inductive TransactionState : Type
  | inProgress : TransactionState
  | completed (completion_time : Nat) (response : List Nat) : TransactionState
deriving DecidableEq

/-- Result of `TransactionTracker::check` (`TransactionStatus`). -/
inductive TransactionStatus : Type
  | New : TransactionStatus
  | InProgress : TransactionStatus
  | Completed (response : List Nat) : TransactionStatus
deriving DecidableEq

/-- The mutex-guarded store (`TransactionStore`). -/
structure TransactionStore : Type where
  transactions : List ((Nat × String) × TransactionState)
  last_housekeeping : Nat
deriving DecidableEq

/-- The immutable configuration part of `TransactionTracker`. -/
structure TransactionTracker : Type where
  retention_period : Nat
  housekeeping_interval : Nat
deriving DecidableEq

/-- One second, in the nanosecond units used for `Duration`. -/
def oneSecond : Nat := 1000000000

/-- `TransactionTracker::new`: derive the housekeeping interval from the
retention period. -/
def TransactionTracker.new (retention_period : Nat) : TransactionTracker :=
  { retention_period := retention_period
    housekeeping_interval :=
      if retention_period < oneSecond then retention_period
      else max oneSecond (retention_period / 4) }

/-- `SystemTime::duration_since`: `none` when the clock moved backwards. -/
def duration_since (now last : Nat) : Option Nat :=
  if last ≤ now then some (now - last) else none

/-- `should_housekeep`: elapsed-at-least-interval, treating a backwards
clock (`duration_since` error) as due (`unwrap_or(true)`). -/
def should_housekeep (last now interval : Nat) : Bool :=
  match duration_since now last with
  | some elapsed => decide (interval ≤ elapsed)
  | none => true

/-- Retention predicate of the housekeeping sweep: keep `InProgress`
entries, and completed entries with `completion_time >= now - max_age`. -/
def retainTx (max_age now : Nat) (s : TransactionState) : Bool :=
  match s with
  | .inProgress => true
  | .completed t _ => decide (now - max_age ≤ t)

/-- `housekeeping`: drop expired completed transactions. -/
def housekeeping (transactions : List ((Nat × String) × TransactionState))
    (max_age now : Nat) : List ((Nat × String) × TransactionState) :=
  transactions.filter (fun kv => retainTx max_age now kv.2)

/-- The condition under which `check` runs the housekeeping sweep. -/
def sweepCond (tr : TransactionTracker) (st : TransactionStore) (now : Nat) : Bool :=
  decide (st.transactions ≠ []) &&
    should_housekeep st.last_housekeeping now tr.housekeeping_interval

/-- The opportunistic housekeeping step at the top of `check`: sweep and
stamp `last_housekeeping` when `sweepCond` holds, else leave the store. -/
def houseStep (tr : TransactionTracker) (st : TransactionStore) (now : Nat) :
    TransactionStore :=
  if sweepCond tr st now then
    { transactions := housekeeping st.transactions tr.retention_period now
      last_housekeeping := now }
  else st

/-- `TransactionTracker::check`, with `now` passed explicitly. -/
def TransactionTracker.check (tr : TransactionTracker) (st : TransactionStore)
    (xid : Nat) (client_addr : String) (now : Nat) :
    TransactionStatus × TransactionStore :=
  match lookupA (houseStep tr st now).transactions (xid, client_addr) with
  | none =>
      (.New, { houseStep tr st now with
        transactions := insertA (houseStep tr st now).transactions (xid, client_addr)
          .inProgress })
  | some .inProgress => (.InProgress, houseStep tr st now)
  | some (.completed _ response) =>
      (.Completed response,
        { houseStep tr st now with
          transactions := insertA (houseStep tr st now).transactions (xid, client_addr)
            (.completed now response) })

/-- `TransactionTracker::record_response`, with `now` passed explicitly. -/
def TransactionTracker.record_response (st : TransactionStore)
    (xid : Nat) (client_addr : String) (now : Nat) (response : List Nat) :
    TransactionStore :=
  { st with transactions := insertA st.transactions (xid, client_addr) (.completed now response) }

/-- `TransactionTracker.clear`: drop the entry for the key. -/
def TransactionTracker.clear (st : TransactionStore)
    (xid : Nat) (client_addr : String) : TransactionStore :=
  { st with transactions := eraseA st.transactions (xid, client_addr) }

theorem keysNodup_houseStep (tr : TransactionTracker) (st : TransactionStore) (now : Nat)
    (hnd : keysNodup st.transactions) :
    keysNodup (houseStep tr st now).transactions := by
  unfold houseStep
  split
  · exact keysNodup_filter _ _ hnd
  · exact hnd

theorem lookupA_houseStep (tr : TransactionTracker) (st : TransactionStore) (now : Nat)
    (key : Nat × String) (v : TransactionState)
    (hnd : keysNodup st.transactions)
    (hv : lookupA st.transactions key = some v)
    (hr : retainTx tr.retention_period now v = true) :
    lookupA (houseStep tr st now).transactions key = some v := by
  unfold houseStep
  split
  · exact lookupA_filter_of_eq _ _ _ _ hnd hv hr
  · exact hv

theorem lookupA_houseStep_none (tr : TransactionTracker) (st : TransactionStore) (now : Nat)
    (key : Nat × String)
    (hv : lookupA st.transactions key = none) :
    lookupA (houseStep tr st now).transactions key = none := by
  unfold houseStep
  split
  · exact lookupA_filter_of_none _ _ _ hv
  · exact hv

theorem check_of_none (tr : TransactionTracker) (st : TransactionStore)
    (x : Nat) (a : String) (now : Nat)
    (h : lookupA (houseStep tr st now).transactions (x, a) = none) :
    tr.check st x a now =
      (.New, { houseStep tr st now with
        transactions := insertA (houseStep tr st now).transactions (x, a) .inProgress }) := by
  unfold TransactionTracker.check
  rw [h]

theorem check_of_inProgress (tr : TransactionTracker) (st : TransactionStore)
    (x : Nat) (a : String) (now : Nat)
    (h : lookupA (houseStep tr st now).transactions (x, a) = some .inProgress) :
    tr.check st x a now = (.InProgress, houseStep tr st now) := by
  unfold TransactionTracker.check
  rw [h]

theorem check_of_completed (tr : TransactionTracker) (st : TransactionStore)
    (x : Nat) (a : String) (now ct : Nat) (r : List Nat)
    (h : lookupA (houseStep tr st now).transactions (x, a) = some (.completed ct r)) :
    tr.check st x a now =
      (.Completed r, { houseStep tr st now with
        transactions := insertA (houseStep tr st now).transactions (x, a)
          (.completed now r) }) := by
  unfold TransactionTracker.check
  rw [h]

/-- C3: per-⟨XID, client⟩ state machine of the tracker. After a `check`
returning `New` every later `check` of the same key returns `InProgress`
(housekeeping never evicts `InProgress` entries); after `record_response`
with bytes `b`, a `check` within the retention window returns exactly
`Completed b` and re-stamps the entry's completion time to that `check`'s
`now`; after `clear`, the next `check` returns `New`. -/
theorem tracker_state_machine :
    (∀ (tr : TransactionTracker) (st : TransactionStore) (x : Nat) (a : String) (t t' : Nat),
      keysNodup st.transactions →
      (tr.check st x a t).1 = .New →
      (tr.check (tr.check st x a t).2 x a t').1 = .InProgress)
    ∧ (∀ (tr : TransactionTracker) (st : TransactionStore) (x : Nat) (a : String)
        (t : Nat) (b : List Nat) (t' : Nat),
      keysNodup st.transactions →
      t' - tr.retention_period ≤ t →
      (tr.check (TransactionTracker.record_response st x a t b) x a t').1 = .Completed b
      ∧ lookupA (tr.check (TransactionTracker.record_response st x a t b) x a t').2.transactions
          (x, a) = some (.completed t' b))
    ∧ (∀ (tr : TransactionTracker) (st : TransactionStore) (x : Nat) (a : String) (t' : Nat),
      keysNodup st.transactions →
      (tr.check (TransactionTracker.clear st x a) x a t').1 = .New) := by
  refine ⟨?_, ?_, ?_⟩
  · intro tr st x a t t' hnd hNew
    have hlk : lookupA (houseStep tr st t).transactions (x, a) = none := by
      rcases h : lookupA (houseStep tr st t).transactions (x, a) with _ | s
      · rfl
      · cases s with
        | inProgress =>
          rw [check_of_inProgress tr st x a t h] at hNew
          simp at hNew
        | completed ct r =>
          rw [check_of_completed tr st x a t ct r h] at hNew
          simp at hNew
    rw [check_of_none tr st x a t hlk]
    have hnd1 : keysNodup (insertA (houseStep tr st t).transactions (x, a)
        TransactionState.inProgress) :=
      keysNodup_insertA _ _ _ (keysNodup_houseStep tr st t hnd)
    have hlk2 : lookupA (houseStep tr
        ({ houseStep tr st t with
           transactions := insertA (houseStep tr st t).transactions (x, a)
             TransactionState.inProgress } : TransactionStore) t').transactions (x, a)
        = some .inProgress :=
      lookupA_houseStep tr _ t' (x, a) .inProgress hnd1 (lookupA_insertA_self _ _ _) rfl
    rw [check_of_inProgress tr _ x a t' hlk2]
  · intro tr st x a t b t' hnd hret
    have hnd1 : keysNodup (TransactionTracker.record_response st x a t b).transactions :=
      keysNodup_insertA _ _ _ hnd
    have hv : lookupA (TransactionTracker.record_response st x a t b).transactions (x, a)
        = some (.completed t b) := lookupA_insertA_self _ _ _
    have hr : retainTx tr.retention_period t' (.completed t b) = true := by
      simp [retainTx, hret]
    have hlk := lookupA_houseStep tr (TransactionTracker.record_response st x a t b) t'
      (x, a) (.completed t b) hnd1 hv hr
    rw [check_of_completed tr _ x a t' t b hlk]
    exact ⟨rfl, lookupA_insertA_self _ _ _⟩
  · intro tr st x a t' hnd
    have hv : lookupA (TransactionTracker.clear st x a).transactions (x, a) = none :=
      lookupA_eraseA_self _ _ hnd
    have hlk := lookupA_houseStep_none tr (TransactionTracker.clear st x a) t' (x, a) hv
    rw [check_of_none tr _ x a t' hlk]

/-- C3 witness: the three legs applied on concrete stores at concrete
times, with every hypothesis discharged by evaluation. -/
theorem tracker_state_machine_witness :
    ((TransactionTracker.new 5).check
        ((TransactionTracker.new 5).check
          { transactions := [], last_housekeeping := 0 } 7 "c" 0).2 7 "c" 1).1 = .InProgress
    ∧ ((TransactionTracker.new 5).check
        (TransactionTracker.record_response
          { transactions := [], last_housekeeping := 0 } 7 "c" 2 [1, 2, 3]) 7 "c" 3).1
        = .Completed [1, 2, 3]
    ∧ ((TransactionTracker.new 5).check
        (TransactionTracker.clear
          { transactions := [((7, "c"), .inProgress)], last_housekeeping := 0 } 7 "c") 7 "c" 4).1
        = .New := by
  refine ⟨?_, ?_, ?_⟩
  · exact tracker_state_machine.1 (TransactionTracker.new 5)
      { transactions := [], last_housekeeping := 0 } 7 "c" 0 1
      (by simp [keysNodup]) (by decide)
  · exact (tracker_state_machine.2.1 (TransactionTracker.new 5)
      { transactions := [], last_housekeeping := 0 } 7 "c" 2 [1, 2, 3] 3
      (by simp [keysNodup]) (by decide)).1
  · exact tracker_state_machine.2.2 (TransactionTracker.new 5)
      { transactions := [((7, "c"), .inProgress)], last_housekeeping := 0 } 7 "c" 4
      (by simp [keysNodup])

/-- C4 counterexample: with retention 4 s the housekeeping interval is
exactly 1 s, and a `check` performed when exactly the interval — not more —
has elapsed since the last sweep on a non-empty store does run the sweep
(it stamps `last_housekeeping` to `now`), refuting the claim that the sweep
runs only when more than the interval has elapsed. -/
theorem tracker_sweep_at_exact_interval :
    ((TransactionTracker.new (4 * oneSecond)).check
        { transactions := [((1, "c"), .inProgress)], last_housekeeping := 0 }
        9 "z" oneSecond).2.last_housekeeping = oneSecond
    ∧ (TransactionTracker.new (4 * oneSecond)).housekeeping_interval = oneSecond
    ∧ ¬ ((TransactionTracker.new (4 * oneSecond)).housekeeping_interval
          < oneSecond - (0 : Nat)) := by
  refine ⟨?_, by decide, by decide⟩
  have hsweep : sweepCond (TransactionTracker.new (4 * oneSecond))
      { transactions := [((1, "c"), .inProgress)], last_housekeeping := 0 } oneSecond = true := by
    decide
  simp only [TransactionTracker.check, houseStep, hsweep, if_true]
  rcases h : lookupA (housekeeping
      ([((1, "c"), TransactionState.inProgress)])
      (TransactionTracker.new (4 * oneSecond)).retention_period oneSecond) (9, "z") with _ | s
  · rfl
  · cases s <;> rfl

/-- C4 (amended): the housekeeping sweep retains exactly the `InProgress`
entries together with the completed entries whose `completion_time` is at
least `now - D`; the sweep is triggered on `check` exactly when the store is
non-empty and at least the interval `H` has elapsed since the last sweep
(a clock that went backwards also counts as due); and
`H = D` when `D < 1 s`, else `H = max(1 s, D / 4)`. -/
theorem tracker_retention_policy :
    (∀ (l : List ((Nat × String) × TransactionState)) (D now : Nat)
        (k : Nat × String),
      ((k, TransactionState.inProgress) ∈ l →
        (k, TransactionState.inProgress) ∈ housekeeping l D now)
      ∧ (∀ (t : Nat) (r : List Nat),
          (k, TransactionState.completed t r) ∈ housekeeping l D now ↔
            ((k, TransactionState.completed t r) ∈ l ∧ now - D ≤ t)))
    ∧ (∀ last now interval : Nat,
        should_housekeep last now interval = true ↔
          (now < last ∨ last + interval ≤ now))
    ∧ (∀ (tr : TransactionTracker) (st : TransactionStore) (now : Nat),
        sweepCond tr st now = true ↔
          (st.transactions ≠ [] ∧
            (now < st.last_housekeeping ∨
              st.last_housekeeping + tr.housekeeping_interval ≤ now)))
    ∧ (∀ D : Nat,
        (TransactionTracker.new D).retention_period = D ∧
        (TransactionTracker.new D).housekeeping_interval =
          (if D < oneSecond then D else max oneSecond (D / 4))) := by
  have hshk : ∀ last now interval : Nat,
      should_housekeep last now interval = true ↔
        (now < last ∨ last + interval ≤ now) := by
    intro last now interval
    unfold should_housekeep duration_since
    by_cases h : last ≤ now
    · simp only [if_pos h, decide_eq_true_eq]
      omega
    · simp only [if_neg h]
      constructor
      · intro _
        left
        omega
      · intro _
        trivial
  refine ⟨?_, hshk, ?_, ?_⟩
  · intro l D now k
    constructor
    · intro hmem
      exact List.mem_filter.mpr ⟨hmem, by simp [retainTx]⟩
    · intro t r
      simp [housekeeping, List.mem_filter, retainTx]
  · intro tr st now
    simp only [sweepCond, Bool.and_eq_true, decide_eq_true_eq, hshk]
  · intro D
    exact ⟨rfl, rfl⟩

/-- C4 witness: the retention characterization applied to a concrete store,
with the membership hypothesis discharged by evaluation. -/
theorem tracker_retention_policy_witness :
    ((7, "c"), TransactionState.inProgress) ∈
      housekeeping [((7, "c"), TransactionState.inProgress),
        ((8, "d"), TransactionState.completed 0 [1])] (2 * oneSecond) (5 * oneSecond) := by
  exact ((tracker_retention_policy.1
    [((7, "c"), TransactionState.inProgress),
      ((8, "d"), TransactionState.completed 0 [1])]
    (2 * oneSecond) (5 * oneSecond) (7, "c")).1 (by simp))

/-! ## Permission evaluator (`src/vfs/permissions.rs`) -/

/-- NFSv3 file type (`ftype3`). -/
inductive Ftype3 : Type
  | NF3REG | NF3DIR | NF3BLK | NF3CHR | NF3LNK | NF3SOCK | NF3FIFO
deriving DecidableEq

/-- NFSv3 file attributes (`fattr3`). `rest` abstracts the remaining
attribute fields (nlink, size, times, …) that the embedded code only ever
compares for equality. -/
structure fattr3 : Type where
  ftype : Ftype3
  mode : Nat
  uid : Nat
  gid : Nat
  fileid : Nat
  rest : Nat
deriving DecidableEq

/-- AUTH_UNIX credentials (`auth_unix`), restricted to the fields the
permission evaluator reads. -/
structure auth_unix : Type where
  uid : Nat
  gid : Nat
  gids : List Nat
deriving DecidableEq

/-- Modelled from the spec: the server capability toggle consulted by
`access_mask` (`super::Capabilities`, whose definition is outside the
sources) — the only way the code uses it is `matches!(…, ReadWrite)`,
the spec's "server is read-write capable". -/
inductive Capabilities : Type
  | ReadOnly | ReadWrite
deriving DecidableEq

/-- `UnixPerms`. -/
structure UnixPerms : Type where
  read : Bool
  write : Bool
  exec : Bool
deriving DecidableEq

def ACCESS3_READ : Nat := 0x0001
def ACCESS3_LOOKUP : Nat := 0x0002
def ACCESS3_MODIFY : Nat := 0x0004
def ACCESS3_EXTEND : Nat := 0x0008
def ACCESS3_DELETE : Nat := 0x0010
def ACCESS3_EXECUTE : Nat := 0x0020

/-- `auth_matches_gid`. -/
def auth_matches_gid (auth : auth_unix) (gid : Nat) : Bool :=
  auth.gid == gid || auth.gids.contains gid

/-- `unix_mode_perms`: POSIX mode bits against AUTH_UNIX credentials. -/
def unix_mode_perms (attr : fattr3) (auth : auth_unix) : UnixPerms :=
  if auth.uid = 0 then { read := true, write := true, exec := true }
  else
    let mode := attr.mode &&& 0o777
    if auth.uid = attr.uid then
      { read := decide (mode &&& 0o400 ≠ 0)
        write := decide (mode &&& 0o200 ≠ 0)
        exec := decide (mode &&& 0o100 ≠ 0) }
    else if auth_matches_gid auth attr.gid then
      { read := decide (mode &&& 0o040 ≠ 0)
        write := decide (mode &&& 0o020 ≠ 0)
        exec := decide (mode &&& 0o010 ≠ 0) }
    else
      { read := decide (mode &&& 0o004 ≠ 0)
        write := decide (mode &&& 0o002 ≠ 0)
        exec := decide (mode &&& 0o001 ≠ 0) }

/-- `access_mask`: RFC 1813 ACCESS3 bits masked against the computed
permissions, by file type. -/
def access_mask (attr : fattr3) (auth : auth_unix) (capabilities : Capabilities)
    (requested : Nat) : Nat :=
  let perms := unix_mode_perms attr auth
  let supports_write := decide (capabilities = Capabilities.ReadWrite)
  let allow_write := supports_write && perms.write
  let write_mask := ACCESS3_MODIFY ||| ACCESS3_EXTEND
  let delete_mask := ACCESS3_DELETE
  match attr.ftype with
  | .NF3REG =>
    let g : Nat := 0
    let g := if requested &&& ACCESS3_READ ≠ 0 ∧ perms.read = true then
      g ||| ACCESS3_READ else g
    let g := if requested &&& ACCESS3_EXECUTE ≠ 0 ∧ perms.exec = true then
      g ||| ACCESS3_EXECUTE else g
    let g := if requested &&& write_mask ≠ 0 ∧ allow_write = true then
      g ||| (requested &&& write_mask) else g
    g
  | .NF3DIR =>
    let g : Nat := 0
    let g := if requested &&& ACCESS3_READ ≠ 0 ∧ perms.read = true then
      g ||| ACCESS3_READ else g
    let g := if requested &&& ACCESS3_LOOKUP ≠ 0 ∧ perms.exec = true then
      g ||| ACCESS3_LOOKUP else g
    let g := if requested &&& ACCESS3_EXECUTE ≠ 0 ∧ perms.exec = true then
      g ||| ACCESS3_EXECUTE else g
    let g := if requested &&& (write_mask ||| delete_mask) ≠ 0
        ∧ allow_write = true ∧ perms.exec = true then
      g ||| (requested &&& (write_mask ||| delete_mask)) else g
    g
  | .NF3LNK =>
    let g : Nat := 0
    let g := if requested &&& ACCESS3_READ ≠ 0 ∧ perms.read = true then
      g ||| ACCESS3_READ else g
    let g := if requested &&& ACCESS3_EXECUTE ≠ 0 ∧ perms.exec = true then
      g ||| ACCESS3_EXECUTE else g
    g
  | _ =>
    let g : Nat := 0
    let g := if requested &&& ACCESS3_READ ≠ 0 ∧ perms.read = true then
      g ||| ACCESS3_READ else g
    let g := if requested &&& ACCESS3_EXECUTE ≠ 0 ∧ perms.exec = true then
      g ||| ACCESS3_EXECUTE else g
    g

/-- §4.3 reference mask: the full set of grantable ACCESS3 bits for the
given permissions, capability and file type, written following the spec's
wording (READ iff read, etc.). -/
def allowed_access (perms : UnixPerms) (rw : Bool) (t : Ftype3) : Nat :=
  match t with
  | .NF3REG =>
      (if perms.read then ACCESS3_READ else 0) |||
      (if perms.exec then ACCESS3_EXECUTE else 0) |||
      (if perms.write && rw then ACCESS3_MODIFY ||| ACCESS3_EXTEND else 0)
  | .NF3DIR =>
      (if perms.read then ACCESS3_READ else 0) |||
      (if perms.exec then ACCESS3_LOOKUP ||| ACCESS3_EXECUTE else 0) |||
      (if perms.write && perms.exec && rw then
        ACCESS3_MODIFY ||| ACCESS3_EXTEND ||| ACCESS3_DELETE else 0)
  | .NF3LNK =>
      (if perms.read then ACCESS3_READ else 0) |||
      (if perms.exec then ACCESS3_EXECUTE else 0)
  | _ =>
      (if perms.read then ACCESS3_READ else 0) |||
      (if perms.exec then ACCESS3_EXECUTE else 0)

theorem land_lor_left (r a b : Nat) : r &&& (a ||| b) = (r &&& a) ||| (r &&& b) :=
  Nat.eq_of_testBit_eq fun i => by
    simp [Nat.testBit_land, Nat.testBit_lor, Bool.and_or_distrib_left]

theorem grant_mask (g r m : Nat) (p : Prop) [Decidable p] :
    (if r &&& m ≠ 0 ∧ p then g ||| (r &&& m) else g) = g ||| (if p then r &&& m else 0) := by
  by_cases hp : p
  · by_cases hz : r &&& m = 0 <;> simp [hz, hp]
  · simp [hp]

theorem grant_bit (g r c : Nat) (p : Prop) [Decidable p]
    (hc : r &&& c = 0 ∨ r &&& c = c) :
    (if r &&& c ≠ 0 ∧ p then g ||| c else g) = g ||| (if p then r &&& c else 0) := by
  by_cases hp : p
  · rcases hc with h | h
    · simp [h, hp]
    · by_cases hz : r &&& c = 0
      · simp [hz, hp]
      · have hcne : c ≠ 0 := fun h0 => hz (h.trans h0)
        simp [h, hz, hp, hcne]
  · simp [hp]

theorem land_pow_cases (r k : Nat) : r &&& 2 ^ k = 0 ∨ r &&& 2 ^ k = 2 ^ k := by
  rw [Nat.and_two_pow]
  cases r.testBit k <;> simp

theorem land_ite (r : Nat) (p : Prop) [Decidable p] (c : Nat) :
    r &&& (if p then c else 0) = if p then r &&& c else 0 := by
  by_cases hp : p <;> simp [hp]

theorem if_lor_split (p : Prop) [Decidable p] (a b : Nat) :
    (if p then a ||| b else 0) = (if p then a else 0) ||| (if p then b else 0) := by
  by_cases hp : p <;> simp [hp]

theorem mode_mask_drop (m c : Nat) (hc : 511 &&& c = c) :
    m &&& 511 &&& c = m &&& c := by
  rw [Nat.land_assoc, hc]

/-- C5: `access_mask` computes exactly the §4.3 reference: the permission
triple is selected by uid-0 / owner / group / other, and the granted mask
equals `requested` intersected with the full grantable bit set for the file
type (so only requested bits ever appear in the granted mask). -/
theorem access_mask_matches_reference (attr : fattr3) (auth : auth_unix)
    (cap : Capabilities) (requested : Nat) :
    (auth.uid = 0 →
      unix_mode_perms attr auth = { read := true, write := true, exec := true })
    ∧ (auth.uid ≠ 0 → auth.uid = attr.uid →
      unix_mode_perms attr auth =
        { read := decide (attr.mode &&& 0o400 ≠ 0)
          write := decide (attr.mode &&& 0o200 ≠ 0)
          exec := decide (attr.mode &&& 0o100 ≠ 0) })
    ∧ (auth.uid ≠ 0 → auth.uid ≠ attr.uid →
      (auth.gid = attr.gid ∨ attr.gid ∈ auth.gids) →
      unix_mode_perms attr auth =
        { read := decide (attr.mode &&& 0o040 ≠ 0)
          write := decide (attr.mode &&& 0o020 ≠ 0)
          exec := decide (attr.mode &&& 0o010 ≠ 0) })
    ∧ (auth.uid ≠ 0 → auth.uid ≠ attr.uid →
      ¬ (auth.gid = attr.gid ∨ attr.gid ∈ auth.gids) →
      unix_mode_perms attr auth =
        { read := decide (attr.mode &&& 0o004 ≠ 0)
          write := decide (attr.mode &&& 0o002 ≠ 0)
          exec := decide (attr.mode &&& 0o001 ≠ 0) })
    ∧ access_mask attr auth cap requested =
        requested &&& allowed_access (unix_mode_perms attr auth)
          (decide (cap = Capabilities.ReadWrite)) attr.ftype
    ∧ access_mask attr auth cap requested &&& requested
        = access_mask attr auth cap requested := by
  have hmg : auth_matches_gid auth attr.gid = true ↔
      (auth.gid = attr.gid ∨ attr.gid ∈ auth.gids) := by
    simp [auth_matches_gid]
  have d400 := mode_mask_drop attr.mode 0o400 (by decide)
  have d200 := mode_mask_drop attr.mode 0o200 (by decide)
  have d100 := mode_mask_drop attr.mode 0o100 (by decide)
  have d040 := mode_mask_drop attr.mode 0o040 (by decide)
  have d020 := mode_mask_drop attr.mode 0o020 (by decide)
  have d010 := mode_mask_drop attr.mode 0o010 (by decide)
  have d004 := mode_mask_drop attr.mode 0o004 (by decide)
  have d002 := mode_mask_drop attr.mode 0o002 (by decide)
  have d001 := mode_mask_drop attr.mode 0o001 (by decide)
  have h1 : requested &&& ACCESS3_READ = 0 ∨
      requested &&& ACCESS3_READ = ACCESS3_READ := by
    have h := land_pow_cases requested 0
    simpa [ACCESS3_READ] using h
  have h2 : requested &&& ACCESS3_LOOKUP = 0 ∨
      requested &&& ACCESS3_LOOKUP = ACCESS3_LOOKUP := by
    have h := land_pow_cases requested 1
    simpa [ACCESS3_LOOKUP] using h
  have h32 : requested &&& ACCESS3_EXECUTE = 0 ∨
      requested &&& ACCESS3_EXECUTE = ACCESS3_EXECUTE := by
    have h := land_pow_cases requested 5
    norm_num at h
    simpa [ACCESS3_EXECUTE] using h
  have hmain : access_mask attr auth cap requested =
      requested &&& allowed_access (unix_mode_perms attr auth)
        (decide (cap = Capabilities.ReadWrite)) attr.ftype := by
    rcases hft : attr.ftype <;>
      · simp only [access_mask, allowed_access, hft]
        try rw [grant_mask]
        rw [grant_bit _ _ _ _ h32]
        try rw [grant_bit _ _ _ _ h2]
        rw [grant_bit _ _ _ _ h1]
        simp only [land_lor_left, land_ite, if_lor_split, Nat.zero_or]
        all_goals by_cases hr : (unix_mode_perms attr auth).read = true <;>
          by_cases hx : (unix_mode_perms attr auth).exec = true <;>
            by_cases hw : (unix_mode_perms attr auth).write = true <;>
              by_cases hb : decide (cap = Capabilities.ReadWrite) = true <;>
                simp [hr, hx, hw, hb, Nat.lor_assoc]
  refine ⟨?_, ?_, ?_, ?_, hmain, ?_⟩
  · intro h0
    simp [unix_mode_perms, h0]
  · intro hnz hown
    simp only [unix_mode_perms, if_neg hnz, if_pos hown]
    simp [d400, d200, d100]
  · intro hnz hown hgrp
    have hmgt : auth_matches_gid auth attr.gid = true := hmg.mpr hgrp
    have hown' : ¬ (auth.uid = attr.uid) := hown
    simp only [unix_mode_perms, if_neg hnz, if_neg hown', hmgt, if_pos]
    simp [d040, d020, d010]
  · intro hnz hown hgrp
    have hmgf : ¬ (auth_matches_gid auth attr.gid = true) := fun h => hgrp (hmg.mp h)
    have hown' : ¬ (auth.uid = attr.uid) := hown
    simp only [unix_mode_perms, if_neg hnz, if_neg hown']
    rw [if_neg (by simpa using hmgf)]
    simp [d004, d002, d001]
  · rw [hmain]
    refine Nat.eq_of_testBit_eq fun i => ?_
    cases hbit : requested.testBit i <;> simp [Nat.testBit_land, hbit]

/-- C5 witness: the reference applied at a concrete attribute record,
credential, capability and request, hypotheses discharged by evaluation. -/
theorem access_mask_matches_reference_witness :
    unix_mode_perms
        { ftype := Ftype3.NF3REG, mode := 0o754, uid := 10, gid := 20,
          fileid := 3, rest := 0 }
        { uid := 10, gid := 20, gids := [5] } =
      { read := true, write := true, exec := true } := by
  have h := (access_mask_matches_reference
    { ftype := Ftype3.NF3REG, mode := 0o754, uid := 10, gid := 20,
      fileid := 3, rest := 0 }
    { uid := 10, gid := 20, gids := [5] } Capabilities.ReadWrite 0x3f).2.1
    (by decide) (by decide)
  rw [h]
  decide

/-! ## MOUNT procedure (`src/protocol/nfs/mount/mnt.rs`)

Paths travel as raw bytes; bytes are modelled as `Nat`s and `/` is byte 47.
The VFS resolution (`context.vfs.path_to_id`) and the file-handle encoding
(`context.vfs.id_to_fh`) are collaborators outside this module and are
passed as parameters. The reply is abstracted to its wire content: the
status plus, on success, the handle bytes and auth flavor list. -/

/-- Raw path bytes. -/
abbrev Bytes := List Nat

/-- The `/` byte. -/
def slashByte : Nat := 47

/-- `trim_start_slashes`. -/
def trim_start_slashes : Bytes → Bytes
  | [] => []
  | b :: rest => if b = slashByte then trim_start_slashes rest else b :: rest

/-- `trim_end_slashes`. -/
def trim_end_slashes : Bytes → Bytes
  | [] => []
  | b :: rest =>
    match trim_end_slashes rest with
    | [] => if b = slashByte then [] else [b]
    | r => b :: r

/-- `trim_slashes`. -/
def trim_slashes (path : Bytes) : Bytes :=
  trim_end_slashes (trim_start_slashes path)

/-- `<[u8]>::strip_prefix`: the remainder of `requested` after the prefix
`export_name`, if `export_name` is a prefix. -/
def stripExport : Bytes → Bytes → Option Bytes
  | r, [] => some r
  | [], _ :: _ => none
  | r :: rs, e :: es => if r = e then stripExport rs es else none

/-- `export_subpath`. -/
def export_subpath (requested export_name : Bytes) : Option Bytes :=
  if export_name = [slashByte] then
    match requested with
    | [] => none
    | b :: rest => if b = slashByte then some rest else none
  else
    match stripExport requested export_name with
    | none => none
    | some [] => some []
    | some (c :: rest) => if c = slashByte then some rest else none

/-- Wire content of a `MOUNTPROC3_MNT` reply. -/
inductive MntReply : Type
  | ok (fhandle : Bytes) (auth_flavors : List Nat) : MntReply
  | noent : MntReply
deriving DecidableEq

def AUTH_NULL : Nat := 0
def AUTH_UNIX : Nat := 1

/-- `mountproc3_mnt`, reduced to the reply it serializes: translate the
requested path against the single export, resolve through the VFS, answer
with the file handle and `[AUTH_NULL, AUTH_UNIX]`, or `MNT3ERR_NOENT`. -/
def mountproc3_mnt (export_name requested : Bytes)
    (path_to_fileid : Bytes → Option Nat) (id_to_fh : Nat → Bytes) : MntReply :=
  match export_subpath requested export_name with
  | none => .noent
  | some sub =>
    match path_to_fileid (slashByte :: trim_slashes sub) with
    | some fileid => .ok (id_to_fh fileid) [AUTH_NULL, AUTH_UNIX]
    | none => .noent

/-- §4.4 reference behaviour, written following the spec's wording: a `/`
export requires a leading `/` and takes the rest; otherwise the request
must be the export prefix followed by nothing or by `/`; the remainder is
trimmed of leading and trailing slashes and re-rooted with a single `/`,
then resolved; failures reply `MNT3ERR_NOENT`. -/
def mnt_reply_spec (export_name requested : Bytes)
    (path_to_fileid : Bytes → Option Nat) (id_to_fh : Nat → Bytes) : MntReply :=
  let sub? : Option Bytes :=
    if export_name = [slashByte] then
      if requested.head? = some slashByte then some requested.tail else none
    else if export_name.isPrefixOf requested then
      let rest := requested.drop export_name.length
      if rest = [] then some []
      else if rest.head? = some slashByte then some rest.tail else none
    else none
  match sub? with
  | none => .noent
  | some sub =>
    match path_to_fileid (slashByte :: trim_slashes sub) with
    | some fileid => .ok (id_to_fh fileid) [AUTH_NULL, AUTH_UNIX]
    | none => .noent

theorem stripExport_eq (r e : Bytes) :
    stripExport r e = if e.isPrefixOf r then some (r.drop e.length) else none := by
  induction e generalizing r with
  | nil => simp [stripExport, List.isPrefixOf]
  | cons x xs ih =>
    cases r with
    | nil => simp [stripExport, List.isPrefixOf]
    | cons y ys =>
      by_cases h : y = x
      · subst h
        simp [stripExport, List.isPrefixOf, ih]
      · have h2 : ¬ (x = y) := fun he => h he.symm
        simp [stripExport, List.isPrefixOf, h, h2]

/-- C8: the MOUNT reply computed by the code coincides with the §4.4
reference behaviour for every export name, requested path, VFS resolution
function and file-handle encoding. -/
theorem mountproc3_mnt_matches_spec (export_name requested : Bytes)
    (path_to_fileid : Bytes → Option Nat) (id_to_fh : Nat → Bytes) :
    mountproc3_mnt export_name requested path_to_fileid id_to_fh =
      mnt_reply_spec export_name requested path_to_fileid id_to_fh := by
  unfold mountproc3_mnt mnt_reply_spec export_subpath
  by_cases he : export_name = [slashByte]
  · cases requested with
    | nil => simp [he]
    | cons b rest => by_cases hb : b = slashByte <;> simp [he, hb]
  · simp only [if_neg he]
    rw [stripExport_eq]
    by_cases hp : export_name.isPrefixOf requested
    · simp only [if_pos hp]
      cases hd : requested.drop export_name.length with
      | nil => simp [he]
      | cons c cs => by_cases hc : c = slashByte <;> simp [he, hc]
    · simp [he, hp]

/-! ## Identity map (`examples/mirror_fs/fs_map.rs`, `fs_entry.rs`)

Symbols are `Nat` indices into the interner's table (symbols are handed out
in interning order and never revoked, which is exactly a list index); a
`PathVec` is a list of symbols relative to the export root, and since the
root is fixed, host paths are identified with `PathVec`s. Host I/O (`stat`
without following symlinks, `read_dir`) is a `Host` record of oracles; a
`read_dir` failure is `listDir = none`. `BTreeSet<Vec<Symbol>>` is a
lexicographically sorted list; `BTreeMap<Symbol, fileid3>` a key-sorted
association list. -/

/-- An interned path component. -/
abbrev Symbol := Nat

/-- A path relative to the export root, as interned symbols. -/
abbrev PathVec := List Nat

/-- A file name as raw bytes. -/
abbrev FileName := List Nat

/-- The interner's table: symbol `s` is the byte string at index `s`. -/
abbrev SymbolTable := List FileName

/-- `SymbolTable::check_interned`: the symbol of an already-interned byte
string, without allocating. -/
def check_interned : SymbolTable → FileName → Option Symbol
  | [], _ => none
  | n :: rest, f =>
    if n = f then some 0 else (check_interned rest f).map (· + 1)

/-- `SymbolTable::intern`: the existing symbol, or a fresh one appended to
the table. -/
def SymbolTable.intern (tbl : SymbolTable) (f : FileName) : Symbol × SymbolTable :=
  match check_interned tbl f with
  | some s => (s, tbl)
  | none => (tbl.length, tbl ++ [f])

/-- `InodeKey`: the ⟨device, inode⟩ pair from a host stat. -/
structure InodeKey : Type where
  dev : Nat
  ino : Nat
deriving DecidableEq

/-- Host `std::fs::Metadata`, restricted to what the embedded code reads.
`rest` abstracts the remaining stat fields carried into the `fattr3`. -/
structure Metadata : Type where
  dev : Nat
  ino : Nat
  ftype : Ftype3
  mode : Nat
  uid : Nat
  gid : Nat
  rest : Nat
deriving DecidableEq

/-- `InodeKey::from_meta`. -/
def InodeKey.from_meta (meta : Metadata) : InodeKey :=
  { dev := meta.dev, ino := meta.ino }

/-- Modelled from the spec: `metadata_to_fattr3` of the external
`nfs_mamont::fs_util` — translate a host stat into NFSv3 attributes with
the fileid set to the given id. -/
def metadata_to_fattr3 (fileid : Nat) (meta : Metadata) : fattr3 :=
  { ftype := meta.ftype, mode := meta.mode, uid := meta.uid, gid := meta.gid,
    fileid := fileid, rest := meta.rest }

/-- Modelled from the spec: `fattr3_differ` of the external
`nfs_mamont::fs_util` — attributes differ when any field other than those
derived from the fileid itself differs. -/
def fattr3_differ (a b : fattr3) : Bool :=
  decide (¬ (a.ftype = b.ftype ∧ a.mode = b.mode ∧ a.uid = b.uid ∧
    a.gid = b.gid ∧ a.rest = b.rest))

/-- Strict lexicographic comparison of `PathVec`s (the `Ord` instance of
`Vec<Symbol>` used by `BTreeSet`). -/
def pvLtb : PathVec → PathVec → Bool
  | [], [] => false
  | [], _ :: _ => true
  | _ :: _, [] => false
  | x :: xs, y :: ys => if x < y then true else if x = y then pvLtb xs ys else false

/-- `BTreeSet<Vec<Symbol>>::insert` on a sorted list. -/
def insertSortedPV (l : List PathVec) (p : PathVec) : List PathVec :=
  match l with
  | [] => [p]
  | q :: rest =>
    if pvLtb p q then p :: q :: rest
    else if p = q then q :: rest
    else q :: insertSortedPV rest p

/-- `BTreeMap<Symbol, fileid3>::insert` on a key-sorted list. -/
def insertSortedNat (l : List (Symbol × Nat)) (k v : Nat) : List (Symbol × Nat) :=
  match l with
  | [] => [(k, v)]
  | q :: rest =>
    if k < q.1 then (k, v) :: q :: rest
    else if k = q.1 then (k, v) :: rest
    else q :: insertSortedNat rest k v

/-- NFSv3 status codes surfaced by the embedded `FSMap` operations. -/
inductive nfsstat3 : Type
  | NFS3ERR_NOENT | NFS3ERR_IO
deriving DecidableEq

/-- `NFSResult`. -/
abbrev NFSResult (α : Type) := Except nfsstat3 α

/-- `RefreshResult`. -/
inductive RefreshResult : Type
  | Noop | Reload | Delete
deriving DecidableEq

/-- `FSEntry` (`fs_entry.rs`). -/
structure FSEntry : Type where
  name : PathVec
  aliases : List PathVec
  fsmeta : fattr3
  children_meta : fattr3
  children : Option (List (Symbol × Nat))
  exclusive_verifier : Option Nat
deriving DecidableEq

/-- `FSEntry::new`. -/
def FSEntry.new (name : PathVec) (fsmeta : fattr3) : FSEntry :=
  { name := name, aliases := [name], fsmeta := fsmeta, children_meta := fsmeta,
    children := none, exclusive_verifier := none }

/-- `FSEntry::is_directory`. -/
def FSEntry.is_directory (e : FSEntry) : Bool :=
  decide (e.fsmeta.ftype = Ftype3.NF3DIR)

/-- `FSMap` (the root path is fixed and left implicit: host paths are the
`PathVec`s themselves). -/
structure FSMap : Type where
  next_fileid : Nat
  intern : SymbolTable
  id_to_path : List (Nat × FSEntry)
  path_to_id : List (PathVec × Nat)
  inode_to_id : List (InodeKey × Nat)
  id_to_inode : List (Nat × InodeKey)
deriving DecidableEq

/-- The host filesystem oracles used by the refresh operations: `stat`
without following symlinks (`none` = does not exist / stat error), and
`read_dir` yielding names with their metadata (`none` = open failure). -/
structure Host : Type where
  stat : PathVec → Option Metadata
  listDir : PathVec → Option (List (FileName × Metadata))

/-- Modelled from the spec: `exists_no_traverse` of the error-handling
module (whose file is not under the sources) — test existence without
following symlinks; here, whether the host `stat` oracle answers. -/
def exists_no_traverse (h : Host) (p : PathVec) : Bool :=
  (h.stat p).isSome

/-- `FSMap::new`: seed the four maps with the root entry (id 0; the code
builds the root's cached `fattr3` with fileid 1). -/
def FSMap.new (rootMeta : Metadata) : FSMap :=
  { next_fileid := 1
    intern := []
    id_to_path := [(0, FSEntry.new [] (metadata_to_fattr3 1 rootMeta))]
    path_to_id := [([], 0)]
    inode_to_id := [(InodeKey.from_meta rootMeta, 0)]
    id_to_inode := [(0, InodeKey.from_meta rootMeta)] }

/-- `FSMap::remove_path`: drop one alias; re-pick the primary from the
remaining aliases (`BTreeSet` iteration order = sorted order, so the first
is the smallest); drop the entry and its inode mappings when the alias set
empties. -/
def FSMap.remove_path (m : FSMap) (path : PathVec) : Option Nat × FSMap :=
  match lookupA m.path_to_id path with
  | none => (none, m)
  | some fileid =>
    let m1 : FSMap := { m with path_to_id := eraseA m.path_to_id path }
    match lookupA m1.id_to_path fileid with
    | none => (some fileid, m1)
    | some entry =>
      let entry1 := { entry with aliases := entry.aliases.erase path }
      let entry2 :=
        if entry1.name = path then
          match entry1.aliases.head? with
          | some new_primary => { entry1 with name := new_primary }
          | none => entry1
        else entry1
      if entry2.aliases = [] then
        let m2 : FSMap := { m1 with id_to_path := eraseA m1.id_to_path fileid }
        let m3 : FSMap :=
          match lookupA m2.id_to_inode fileid with
          | some inode =>
            { m2 with id_to_inode := eraseA m2.id_to_inode fileid
                      inode_to_id := eraseA m2.inode_to_id inode }
          | none => m2
        (some fileid, m3)
      else
        (some fileid, { m1 with id_to_path := insertA m1.id_to_path fileid entry2 })

/-- `FSMap::remove_path_tree`: recursively remove a directory subtree.
Recursion over child entries is paid for with explicit fuel; the Rust code
recurses on a finite acyclic tree, and every use here supplies fuel
exceeding the recursion depth. -/
def FSMap.remove_path_tree (fuel : Nat) (m : FSMap) (path : PathVec) (id : Nat) : FSMap :=
  match fuel with
  | 0 => m
  | fuel + 1 =>
    match lookupA m.id_to_path id with
    | none => m
    | some entry =>
      let m1 :=
        if entry.is_directory then
          match entry.children with
          | some children =>
            children.foldl (fun acc kv =>
              let child_path := path ++ [kv.1]
              match lookupA acc.id_to_path kv.2 with
              | some child_entry =>
                if child_entry.is_directory then
                  FSMap.remove_path_tree fuel acc child_path kv.2
                else (acc.remove_path child_path).2
              | none => (acc.remove_path child_path).2) m
          | none => m
        else m
      (m1.remove_path path).2

/-- `FSMap::delete_entry`. -/
def FSMap.delete_entry (m : FSMap) (id : Nat) : FSMap :=
  match lookupA m.id_to_path id with
  | none => m
  | some entry => FSMap.remove_path_tree (m.id_to_path.length + 1) m entry.name id

/-- `FSMap::find_entry`. -/
def FSMap.find_entry (m : FSMap) (id : Nat) : NFSResult FSEntry :=
  match lookupA m.id_to_path id with
  | none => .error .NFS3ERR_NOENT
  | some entry => .ok entry

/-- `FSMap::find_child`: intern-check the byte name (never interning),
append to the parent's primary path, look up. Takes `&self`: the returned
map is the incoming one. -/
def FSMap.find_child (m : FSMap) (id : Nat) (filename : FileName) :
    NFSResult Nat × FSMap :=
  match lookupA m.id_to_path id with
  | none => (.error .NFS3ERR_NOENT, m)
  | some entry =>
    match check_interned m.intern filename with
    | none => (.error .NFS3ERR_NOENT, m)
    | some sym =>
      match lookupA m.path_to_id (entry.name ++ [sym]) with
      | none => (.error .NFS3ERR_NOENT, m)
      | some cid => (.ok cid, m)

/-- `FSMap::create_entry`: known path → refresh attributes; known inode
under another path → new hard-link alias; otherwise allocate the next id
and insert into all four maps. -/
def FSMap.create_entry (m : FSMap) (fullpath : PathVec) (meta : Metadata) :
    Nat × FSMap :=
  match lookupA m.path_to_id fullpath with
  | some chid =>
    let m1 : FSMap :=
      match lookupA m.id_to_path chid with
      | some chent =>
        let chent1 := { chent with fsmeta := metadata_to_fattr3 chid meta }
        { m with id_to_path := insertA m.id_to_path chid chent1 }
      | none => m
    (chid, m1)
  | none =>
    let inode_key := InodeKey.from_meta meta
    match lookupA m.inode_to_id inode_key with
    | some existing_id =>
      let m1 : FSMap :=
        match lookupA m.id_to_path existing_id with
        | some entry =>
          let entry1 := { entry with
            fsmeta := metadata_to_fattr3 existing_id meta
            aliases := insertSortedPV entry.aliases fullpath }
          { m with id_to_path := insertA m.id_to_path existing_id entry1 }
        | none => m
      let m2 : FSMap := { m1 with path_to_id := insertA m1.path_to_id fullpath existing_id }
      let m3 : FSMap :=
        if (lookupA m2.id_to_inode existing_id).isSome then m2
        else { m2 with id_to_inode := insertA m2.id_to_inode existing_id inode_key }
      (existing_id, m3)
    | none =>
      let next_id := m.next_fileid
      let metafattr := metadata_to_fattr3 next_id meta
      let new_entry := FSEntry.new fullpath metafattr
      (next_id,
        { next_fileid := m.next_fileid + 1
          intern := m.intern
          id_to_path := insertA m.id_to_path next_id new_entry
          path_to_id := insertA m.path_to_id fullpath next_id
          inode_to_id := insertA m.inode_to_id inode_key next_id
          id_to_inode := insertA m.id_to_inode next_id inode_key })

/-- `FSMap::refresh_entry`: drop dead aliases, re-pick the primary, delete
on full disappearance; stat the primary; delete on inode change
(out-of-band replace) or type change; update attributes in place
otherwise. -/
def FSMap.refresh_entry (h : Host) (m : FSMap) (id : Nat) :
    NFSResult RefreshResult × FSMap :=
  match lookupA m.id_to_path id with
  | none => (.error .NFS3ERR_NOENT, m)
  | some entry =>
    let existing_aliases := entry.aliases.filter (fun a => exists_no_traverse h a)
    let ptid1 := entry.aliases.foldl
      (fun acc a => if exists_no_traverse h a then acc else eraseA acc a) m.path_to_id
    let m1 : FSMap := { m with path_to_id := ptid1 }
    match existing_aliases.head? with
    | none => (.ok .Delete, m1.delete_entry id)
    | some primary =>
      let entry1 := { entry with aliases := existing_aliases, name := primary }
      let m2 : FSMap := { m1 with id_to_path := insertA m1.id_to_path id entry1 }
      match h.stat primary with
      | none => (.error nfsstat3.NFS3ERR_IO, m2)
      | some meta =>
        let inode_key := InodeKey.from_meta meta
        if lookupA m2.id_to_inode id ≠ some inode_key then
          (.ok .Delete, m2.delete_entry id)
        else
          let iti := insertA m2.id_to_inode id inode_key
          let inti := insertA m2.inode_to_id inode_key id
          let m3 : FSMap := { m2 with id_to_inode := iti, inode_to_id := inti }
          let newmeta := metadata_to_fattr3 id meta
          if fattr3_differ newmeta entry.fsmeta = false then
            (.ok .Noop, m3)
          else if decide (entry.fsmeta.ftype ≠ newmeta.ftype) then
            (.ok .Delete, m3.delete_entry id)
          else
            let m4 : FSMap :=
              match lookupA m3.id_to_path id with
              | some cur =>
                let cur1 := { cur with fsmeta := newmeta }
                { m3 with id_to_path := insertA m3.id_to_path id cur1 }
              | none => m3
            (.ok .Reload, m4)

/-- `FSMap::refresh_dir_list`: early-return when a children listing exists
and the cached `children_meta` equals the current `fsmeta`; no-op for
non-directories; otherwise list the host directory (silently succeeding
when the open fails), `create_entry` every yielded name, `remove_path` the
stale old children, and install the fresh child map with
`children_meta := fsmeta`. -/
def FSMap.refresh_dir_list (h : Host) (m : FSMap) (id : Nat) :
    NFSResult Unit × FSMap :=
  match lookupA m.id_to_path id with
  | none => (.error .NFS3ERR_NOENT, m)
  | some entry =>
    if entry.children.isSome && !(fattr3_differ entry.children_meta entry.fsmeta) then
      (.ok (), m)
    else if !entry.is_directory then
      (.ok (), m)
    else
      match h.listDir entry.name with
      | none => (.ok (), m)
      | some listing =>
        let step := fun (acc : FSMap × List (Symbol × Nat)) (it : FileName × Metadata) =>
          let symtbl := SymbolTable.intern acc.1.intern it.1
          let mi : FSMap := { acc.1 with intern := symtbl.2 }
          let created := mi.create_entry (entry.name ++ [symtbl.1]) it.2
          (created.2, insertSortedNat acc.2 symtbl.1 created.1)
        let folded := listing.foldl step (m, [])
        let m1 := folded.1
        let new_children := folded.2
        let m2 : FSMap :=
          match entry.children with
          | none => m1
          | some old_children =>
            old_children.foldl (fun acc kv =>
              if (lookupA new_children kv.1).isSome then acc
              else (acc.remove_path (entry.name ++ [kv.1])).2) m1
        let m3 : FSMap :=
          match lookupA m2.id_to_path id with
          | none => m2
          | some em =>
            let em1 := { em with children := some new_children, children_meta := em.fsmeta }
            { m2 with id_to_path := insertA m2.id_to_path id em1 }
        (.ok (), m3)

/-! ### Concrete states used to exercise the refresh operations -/

/-- Stat of the exported root directory. -/
def metaDir0 : Metadata :=
  { dev := 1, ino := 1, ftype := Ftype3.NF3DIR, mode := 0o755, uid := 0, gid := 0, rest := 0 }

/-- Stat of the seeded regular file `a` (inode 2). -/
def metaA : Metadata :=
  { dev := 1, ino := 2, ftype := Ftype3.NF3REG, mode := 0o644, uid := 0, gid := 0, rest := 0 }

/-- Stat of the regular file `b` (inode 3) later added on disk. -/
def metaB : Metadata :=
  { dev := 1, ino := 3, ftype := Ftype3.NF3REG, mode := 0o644, uid := 0, gid := 0, rest := 1 }

/-- Stat of the replacement that atomically took over path `a` (inode 9). -/
def metaA9 : Metadata :=
  { dev := 1, ino := 9, ftype := Ftype3.NF3REG, mode := 0o644, uid := 0, gid := 0, rest := 2 }

/-- The map after `FSMap::new(root)` followed by `create_entry` of the file
`a` under symbol 0 (the state the regression tests start from). -/
def mSeedA : FSMap :=
  ((FSMap.new metaDir0).create_entry [0] metaA).2

/-- Root entry as cached by the regression test
`refresh_dir_list_does_not_skip_when_metadata_is_stale`: children `{a ↦ 1}`
already listed, and `children_meta` forced equal to the (stale) `fsmeta`. -/
def rootEntryStale : FSEntry :=
  { name := [], aliases := [[]], fsmeta := metadata_to_fattr3 1 metaDir0,
    children_meta := metadata_to_fattr3 1 metaDir0,
    children := some [(0, 1)], exclusive_verifier := none }

/-- The full map of that test state: `a` interned as symbol 0 and mapped as
id 1, while on disk the directory now also contains `b`. -/
def mStale : FSMap :=
  { next_fileid := 2
    intern := [[97]]
    id_to_path := [(0, rootEntryStale), (1, FSEntry.new [0] (metadata_to_fattr3 1 metaA))]
    path_to_id := [([], 0), ([0], 1)]
    inode_to_id := [(InodeKey.from_meta metaDir0, 0), (InodeKey.from_meta metaA, 1)]
    id_to_inode := [(0, InodeKey.from_meta metaDir0), (1, InodeKey.from_meta metaA)] }

/-- Host where the root directory currently contains `a` (bytes `[97]`) and
the newly added `b` (bytes `[98]`). -/
def hostAB : Host :=
  { stat := fun p => if p = [] then some metaDir0
      else if p = [0] then some metaA else none
    listDir := fun p => if p = [] then some [([97], metaA), ([98], metaB)] else none }

/-- Host where the file `a` has been deleted out of band. -/
def hostGone : Host :=
  { stat := fun p => if p = [] then some metaDir0 else none
    listDir := fun _ => none }

/-- Host where path `a` now stats to a different inode (atomic replace). -/
def hostReplaced : Host :=
  { stat := fun p => if p = [] then some metaDir0
      else if p = [0] then some metaA9 else none
    listDir := fun _ => none }

/-- Invariant 3 of §3: every entry's `name` is among its `aliases`, and
every alias maps back to the entry's id in `path_to_id`. -/
def invariant3 (m : FSMap) : Prop :=
  ∀ p ∈ m.id_to_path, p.2.name ∈ p.2.aliases ∧
    ∀ a ∈ p.2.aliases, lookupA m.path_to_id a = some p.1

instance {eps alpha : Type} [DecidableEq eps] [DecidableEq alpha] :
    DecidableEq (Except eps alpha) := fun x y =>
  match x, y with
  | .error e1, .error e2 =>
    if h : e1 = e2 then .isTrue (by rw [h])
    else .isFalse (fun he => by cases he; exact h rfl)
  | .ok a1, .ok a2 =>
    if h : a1 = a2 then .isTrue (by rw [h])
    else .isFalse (fun he => by cases he; exact h rfl)
  | .error _, .ok _ => .isFalse (fun he => by cases he)
  | .ok _, .error _ => .isFalse (fun he => by cases he)

instance invariant3.decidable (m : FSMap) : Decidable (invariant3 m) := by
  unfold invariant3
  infer_instance

/-- C1: `refresh_dir_list` on the stale test state returns successfully
without re-scanning — the early return fires because the cached
`children_meta` equals the cached `fsmeta` — so the map stays unchanged and
the on-disk name `b` (yielded by the host listing) is neither interned nor
installed as a child, contradicting the spec's re-scan-on-every-request
requirement and the repository's own regression test. -/
theorem refresh_dir_list_skips_when_metadata_is_stale :
    FSMap.refresh_dir_list hostAB mStale 0 = (Except.ok (), mStale)
    ∧ hostAB.listDir [] = some [([97], metaA), ([98], metaB)]
    ∧ (lookupA mStale.id_to_path 0).map (fun e => e.children) = some (some [(0, 1)])
    ∧ check_interned mStale.intern [98] = none := by
  refine ⟨by decide, by decide, by decide, by decide⟩

/-- C2: after seeding `a` the §3 invariants hold, but a `refresh_entry` in
which no alias survives the existence check returns `Delete` while leaving
the entry in `id_to_path` (its `delete_entry` call finds the aliases
already gone from `path_to_id`, so `remove_path` is a no-op), violating
invariant 3. -/
theorem refresh_entry_no_alias_breaks_invariant3 :
    invariant3 mSeedA
    ∧ (FSMap.refresh_entry hostGone mSeedA 1).1 = Except.ok RefreshResult.Delete
    ∧ (lookupA (FSMap.refresh_entry hostGone mSeedA 1).2.id_to_path 1).isSome = true
    ∧ ¬ invariant3 (FSMap.refresh_entry hostGone mSeedA 1).2 := by
  refine ⟨by decide, by decide, by decide, by decide⟩

/-- C6 counterexample: an out-of-band replace (path `a` stats to inode 9
while the map caches inode 2) makes `refresh_entry` return `Delete`, but
the inode mappings are NOT updated to the newly observed InodeKey — the
early return precedes the update, and `delete_entry` has removed the id's
inode mappings altogether. -/
theorem refresh_entry_replace_leaves_no_inode_mapping :
    (FSMap.refresh_entry hostReplaced mSeedA 1).1 = Except.ok RefreshResult.Delete
    ∧ lookupA (FSMap.refresh_entry hostReplaced mSeedA 1).2.id_to_inode 1 = none
    ∧ lookupA (FSMap.refresh_entry hostReplaced mSeedA 1).2.inode_to_id
        (InodeKey.from_meta metaA9) = none := by
  refine ⟨by decide, by decide, by decide⟩

/-- C9: `find_child` never mutates the map (in particular the symbol table
is unchanged — the read path uses `check_interned`, never `intern`), and it
answers `NFS3ERR_NOENT` both when the filename's bytes are not interned and
when the composed path is unknown. -/
theorem find_child_frame_and_noent (m : FSMap) (id : Nat) (filename : FileName)
    (e : FSEntry) (he : lookupA m.id_to_path id = some e) :
    (m.find_child id filename).2 = m
    ∧ (m.find_child id filename).2.intern = m.intern
    ∧ (check_interned m.intern filename = none →
        (m.find_child id filename).1 = Except.error nfsstat3.NFS3ERR_NOENT)
    ∧ (∀ s, check_interned m.intern filename = some s →
        lookupA m.path_to_id (e.name ++ [s]) = none →
        (m.find_child id filename).1 = Except.error nfsstat3.NFS3ERR_NOENT) := by
  have hframe : (m.find_child id filename).2 = m := by
    unfold FSMap.find_child
    cases h0 : lookupA m.id_to_path id with
    | none => rfl
    | some e0 =>
      cases h1 : check_interned m.intern filename with
      | none => rfl
      | some s =>
        cases h2 : lookupA m.path_to_id (e0.name ++ [s]) with
        | none => simp [h2]
        | some cid => simp [h2]
  refine ⟨hframe, by rw [hframe], ?_, ?_⟩
  · intro h1
    simp only [FSMap.find_child, he, h1]
  · intro s h1 h2
    simp only [FSMap.find_child, he, h1, h2]

/-- C9 witness: `find_child` on a concrete map for a name whose bytes were
never interned, every hypothesis discharged by evaluation. -/
theorem find_child_frame_and_noent_witness :
    (mStale.find_child 0 [99]).2 = mStale
    ∧ (mStale.find_child 0 [99]).1 = Except.error nfsstat3.NFS3ERR_NOENT := by
  have h := find_child_frame_and_noent mStale 0 [99] rootEntryStale (by decide)
  exact ⟨h.1, h.2.2.1 (by decide)⟩

/-- C10: when the early return does not fire and the entry is a directory,
a failing `read_dir` (`listDir = none`) makes `refresh_dir_list` return
`Ok(())` — not `NFS3ERR_IO` — with the map (children, `children_meta`,
`path_to_id`, everything) left unchanged. -/
theorem refresh_dir_list_ok_on_read_dir_failure (h : Host) (m : FSMap) (id : Nat)
    (e : FSEntry) (he : lookupA m.id_to_path id = some e)
    (hearly : (e.children.isSome && !(fattr3_differ e.children_meta e.fsmeta)) = false)
    (hdir : e.is_directory = true)
    (hlist : h.listDir e.name = none) :
    FSMap.refresh_dir_list h m id = (Except.ok (), m) := by
  unfold FSMap.refresh_dir_list
  rw [he]
  simp [hearly, hdir, hlist]

/-- C10 witness: a concrete directory whose host listing fails to open. -/
theorem refresh_dir_list_ok_on_read_dir_failure_witness :
    FSMap.refresh_dir_list hostGone (FSMap.new metaDir0) 0 =
      (Except.ok (), FSMap.new metaDir0) := by
  exact refresh_dir_list_ok_on_read_dir_failure hostGone (FSMap.new metaDir0) 0
    (FSEntry.new [] (metadata_to_fattr3 1 metaDir0))
    (by decide) (by decide) (by decide) (by decide)

/-- C7: `remove_path` on a mapped path removes it from `path_to_id` and
from the owning entry's alias set; when the removed alias was the primary
`name`, the new primary is the head of the remaining sorted alias set —
the smallest remaining alias in the `BTreeSet` order; and when the alias
set empties, the entry and both its inode mappings are removed in the same
step. -/
theorem remove_path_spec (m : FSMap) (p : PathVec) (id : Nat) (e : FSEntry)
    (k : InodeKey)
    (hp : lookupA m.path_to_id p = some id)
    (he : lookupA m.id_to_path id = some e)
    (hk : lookupA m.id_to_inode id = some k)
    (hsorted : e.aliases.Pairwise (fun a b => pvLtb a b = true))
    (hndp : keysNodup m.path_to_id) (hndi : keysNodup m.id_to_path)
    (hndk : keysNodup m.id_to_inode) (hndn : keysNodup m.inode_to_id) :
    (m.remove_path p).1 = some id
    ∧ lookupA (m.remove_path p).2.path_to_id p = none
    ∧ (e.aliases.erase p = [] →
        lookupA (m.remove_path p).2.id_to_path id = none
        ∧ lookupA (m.remove_path p).2.id_to_inode id = none
        ∧ lookupA (m.remove_path p).2.inode_to_id k = none)
    ∧ (e.aliases.erase p ≠ [] →
        ∃ e', lookupA (m.remove_path p).2.id_to_path id = some e'
          ∧ e'.aliases = e.aliases.erase p
          ∧ (e.name ≠ p → e'.name = e.name)
          ∧ (e.name = p →
              e'.name ∈ e.aliases.erase p
              ∧ ∀ q ∈ e.aliases.erase p, e'.name = q ∨ pvLtb e'.name q = true)) := by
  by_cases hemp : e.aliases.erase p = []
  · have hhead : (e.aliases.erase p).head? = none := by
      rw [hemp]
      rfl
    have hstep : m.remove_path p =
        (some id,
          { m with path_to_id := eraseA m.path_to_id p
                   id_to_path := eraseA m.id_to_path id
                   id_to_inode := eraseA m.id_to_inode id
                   inode_to_id := eraseA m.inode_to_id k }) := by
      by_cases hname : e.name = p <;>
        simp [FSMap.remove_path, hp, he, hk, hname, hhead, hemp]
    rw [hstep]
    refine ⟨rfl, lookupA_eraseA_self _ _ hndp, ?_, ?_⟩
    · intro _
      exact ⟨lookupA_eraseA_self _ _ hndi, lookupA_eraseA_self _ _ hndk,
        lookupA_eraseA_self _ _ hndn⟩
    · intro hne
      exact absurd hemp hne
  · by_cases hname : e.name = p
    · cases herase : e.aliases.erase p with
      | nil => exact absurd herase hemp
      | cons np rest =>
        have hstep : m.remove_path p =
            (some id,
              { m with path_to_id := eraseA m.path_to_id p
                       id_to_path := insertA m.id_to_path id
                         { e with aliases := np :: rest, name := np } }) := by
          simp [FSMap.remove_path, hp, he, hk, hname, herase]
        rw [hstep]
        have hsorted' : (np :: rest).Pairwise (fun a b => pvLtb a b = true) := by
          rw [← herase]
          exact hsorted.sublist (List.erase_sublist _ _)
        refine ⟨rfl, lookupA_eraseA_self _ _ hndp,
          fun hc => absurd hc (List.cons_ne_nil np rest), ?_⟩
        intro _
        refine ⟨{ e with aliases := np :: rest, name := np },
          lookupA_insertA_self _ _ _, rfl, fun hc => absurd hname hc, ?_⟩
        intro _
        refine ⟨List.mem_cons_self _ _, ?_⟩
        intro q hq
        rcases List.mem_cons.mp hq with hq | hq
        · left
          exact hq.symm
        · right
          exact (List.pairwise_cons.mp hsorted').1 q hq
    · have hstep : m.remove_path p =
          (some id,
            { m with path_to_id := eraseA m.path_to_id p
                     id_to_path := insertA m.id_to_path id
                       { e with aliases := e.aliases.erase p } }) := by
        simp [FSMap.remove_path, hp, he, hk, hname, hemp]
      rw [hstep]
      refine ⟨rfl, lookupA_eraseA_self _ _ hndp, fun hc => absurd hc hemp, ?_⟩
      intro _
      exact ⟨{ e with aliases := e.aliases.erase p },
        lookupA_insertA_self _ _ _, rfl, fun _ => rfl, fun hc => absurd hc hname⟩

/-- C7 witness: removing the lone alias of the seeded file `a` deletes the
entry and its inode mappings; hypotheses discharged by evaluation. -/
theorem remove_path_spec_witness :
    (mSeedA.remove_path [0]).1 = some 1
    ∧ lookupA (mSeedA.remove_path [0]).2.path_to_id [0] = none
    ∧ lookupA (mSeedA.remove_path [0]).2.id_to_path 1 = none
    ∧ lookupA (mSeedA.remove_path [0]).2.id_to_inode 1 = none
    ∧ lookupA (mSeedA.remove_path [0]).2.inode_to_id (InodeKey.from_meta metaA) = none := by
  have h := remove_path_spec mSeedA [0] 1 (FSEntry.new [0] (metadata_to_fattr3 1 metaA))
    (InodeKey.from_meta metaA) (by decide) (by decide) (by decide)
    (by decide) (by decide) (by decide) (by decide) (by decide)
  refine ⟨h.1, h.2.1, ?_⟩
  have h3 := h.2.2.1 (by decide)
  exact ⟨h3.1, h3.2.1, h3.2.2⟩

/-- C6 (amended): on an out-of-band replace — the (single) surviving
primary path stats successfully but yields an InodeKey different from the
cached one — `refresh_entry` performs `delete_entry` and returns `Delete`;
the id's inode mappings are REMOVED by that deletion rather than updated:
the early return precedes the inode-map update, which only runs when the
observed key equals the cached one, so the newly observed InodeKey is
mapped nowhere. -/
theorem refresh_entry_replace_deletes (h : Host) (m : FSMap) (id : Nat) (e : FSEntry)
    (p : PathVec) (meta : Metadata)
    (he : lookupA m.id_to_path id = some e)
    (hal : e.aliases = [p])
    (hst : h.stat p = some meta)
    (hik : lookupA m.id_to_inode id ≠ some (InodeKey.from_meta meta))
    (hdir : e.is_directory = false)
    (hptid : lookupA m.path_to_id p = some id)
    (hndi : keysNodup m.id_to_path)
    (hndk : keysNodup m.id_to_inode)
    (hfresh : lookupA m.inode_to_id (InodeKey.from_meta meta) = none) :
    (FSMap.refresh_entry h m id).1 = Except.ok RefreshResult.Delete
    ∧ lookupA (FSMap.refresh_entry h m id).2.id_to_path id = none
    ∧ lookupA (FSMap.refresh_entry h m id).2.id_to_inode id = none
    ∧ lookupA (FSMap.refresh_entry h m id).2.inode_to_id (InodeKey.from_meta meta)
        = none := by
  have hex : exists_no_traverse h p = true := by
    simp [exists_no_traverse, hst]
  have hstep : FSMap.refresh_entry h m id =
      (Except.ok RefreshResult.Delete,
        FSMap.delete_entry
          ({ m with id_to_path := insertA m.id_to_path id ({ e with aliases := [p], name := p }) }) id) := by
    simp [FSMap.refresh_entry, he, hal, hex, hst, hik]
  have hentry1 : lookupA (insertA m.id_to_path id ({ e with aliases := [p], name := p })) id =
      some ({ e with aliases := [p], name := p } : FSEntry) := lookupA_insertA_self _ _ _
  have hdir1 : ({ e with aliases := [p], name := p } : FSEntry).is_directory = false := by
    simpa [FSEntry.is_directory] using hdir
  have hnd1 : keysNodup (insertA m.id_to_path id ({ e with aliases := [p], name := p })) :=
    keysNodup_insertA _ _ _ hndi
  have hdel : FSMap.delete_entry
      ({ m with id_to_path := insertA m.id_to_path id ({ e with aliases := [p], name := p }) }) id =
      ({ m with
          id_to_path := eraseA (insertA m.id_to_path id ({ e with aliases := [p], name := p })) id
          path_to_id := eraseA m.path_to_id p
          id_to_inode := eraseA m.id_to_inode id
          inode_to_id :=
            match lookupA m.id_to_inode id with
            | some inode => eraseA m.inode_to_id inode
            | none => m.inode_to_id } : FSMap) := by
    rcases hcase : lookupA m.id_to_inode id with _ | k
    · simp [FSMap.delete_entry, FSMap.remove_path_tree, FSMap.remove_path,
        hentry1, hdir1, hptid, hcase]
      exact (eraseA_of_none _ _ hcase).symm
    · simp [FSMap.delete_entry, FSMap.remove_path_tree, FSMap.remove_path,
        hentry1, hdir1, hptid, hcase]
  rw [hstep, hdel]
  refine ⟨rfl, lookupA_eraseA_self _ _ hnd1, lookupA_eraseA_self _ _ hndk, ?_⟩
  rcases hcase : lookupA m.id_to_inode id with _ | k
  · simpa [hcase] using hfresh
  · have hkne : InodeKey.from_meta meta ≠ k := by
      intro hcontra
      exact hik (by rw [hcase, hcontra])
    simp only [hcase]
    rw [lookupA_eraseA_ne _ _ _ hkne]
    exact hfresh

/-- C6 (amended) witness: the concrete replaced-inode state, hypotheses
discharged by evaluation. -/
theorem refresh_entry_replace_deletes_witness :
    (FSMap.refresh_entry hostReplaced mSeedA 1).1 = Except.ok RefreshResult.Delete
    ∧ lookupA (FSMap.refresh_entry hostReplaced mSeedA 1).2.id_to_path 1 = none := by
  have h := refresh_entry_replace_deletes hostReplaced mSeedA 1
    (FSEntry.new [0] (metadata_to_fattr3 1 metaA)) [0] metaA9
    (by decide) (by decide) (by decide) (by decide) (by decide) (by decide)
    (by decide) (by decide) (by decide)
  exact ⟨h.1, h.2.1⟩
